import Mathlib

/-!
Verification of the checkbox-line mapper and the sanitization / listing
helpers of this repository.

The mapper `toggleCheckbox` is imported by
`packages/frontend/@n8n/design-system/src/components/N8nMarkdown/Markdown.vue`
from `../../utils/markdown`; that utils file is not part of the provided
sources, so the mapper and the task-line pattern are modelled from the
specification (section 3 "Data model" and section 4.1 "Checkbox-Line
Mapper").  The sanitizer callbacks (`onTagAttr`, `onIgnoreTag`), the
`htmlContent` guard and `onCheckboxChange` are embedded from
`Markdown.vue`; the directory-listing script is embedded from `files.js`.
-/

namespace N8nSpec

/-- Horizontal whitespace characters accepted inside a markdown line. -/
def isWsChar (c : Char) : Bool := c = ' ' || c = '\t'

/-- Markdown list-item bullet characters. -/
def isBulletChar (c : Char) : Bool := c = '-' || c = '*' || c = '+'

/-- Characters allowed inside the checkbox brackets: unchecked is a space,
checked is a lower- or upper-case x. -/
def isStateChar (c : Char) : Bool := c = ' ' || c = 'x' || c = 'X'

/-- Does the first list start with the second one?  (JS `startsWith`.) -/
def hasPrefixL : List Char → List Char → Bool
  | _, [] => true
  | [], _ :: _ => false
  | c :: cs, d :: ds => c = d && hasPrefixL cs ds

/-- Substring containment (JS `String.prototype.includes`). -/
def containsL : List Char → List Char → Bool
  | [], sub => sub.isEmpty
  | c :: cs, sub => hasPrefixL (c :: cs) sub || containsL cs sub

/-- Substring containment at the `String` level. -/
def includesStr (s sub : String) : Bool := containsL s.data sub.data

/-- Does the first list end with the second one?  (anchored regex `$`.) -/
def endsWithL (s suf : List Char) : Bool := hasPrefixL s.reverse suf.reverse

/-- The part of `s` strictly before the first occurrence of `pat`
(`s` itself when `pat` does not occur): one JS `split` segment. -/
def takeBeforeFirst (pat : List Char) : List Char → List Char
  | [] => []
  | c :: cs => if hasPrefixL (c :: cs) pat then [] else c :: takeBeforeFirst pat cs

/-- The part of `s` strictly after the first occurrence of `pat`
(`[]` when `pat` does not occur). -/
def dropThroughFirst (pat : List Char) : List Char → List Char
  | [] => []
  | c :: cs => if hasPrefixL (c :: cs) pat then cs.drop (pat.length - 1) else dropThroughFirst pat cs

/-- Non-overlapping left-to-right replacement (JS `replaceAll`). -/
def replaceAllL (pat rep : List Char) (s : List Char) : List Char :=
  match s with
  | [] => []
  | c :: cs =>
    if pat.isEmpty then c :: cs
    else if hasPrefixL (c :: cs) pat then rep ++ replaceAllL pat rep (cs.drop (pat.length - 1))
    else c :: replaceAllL pat rep cs
termination_by s.length
decreasing_by
  · simp only [List.length_cons, List.length_drop]
    omega
  · simp [Nat.lt_succ_self]

/-- `replaceAll` at the `String` level. -/
def replaceAllStr (s pat rep : String) : String :=
  String.mk (replaceAllL pat.data rep.data s.data)

/-- Split a character list at newline characters (JS `split('\n')`):
always returns at least one (possibly empty) line, and the lines contain
no newline characters. -/
def splitLines : List Char → List (List Char)
  | [] => [[]]
  | c :: cs =>
    let r := splitLines cs
    if c = '\n' then [] :: r
    else
      match r with
      | [] => [[c]]
      | l :: ls => (c :: l) :: ls

/-- Rejoin lines with newline separators (JS `join('\n')`). -/
def joinLines : List (List Char) → List Char
  | [] => []
  | l :: ls =>
    match ls with
    | [] => l
    | _ :: _ => l ++ '\n' :: joinLines ls

/-- The components of a task-list line: leading whitespace, a bullet
character, whitespace between the bullet and the bracket, the state
character inside the brackets, and the rest of the line after the
closing bracket (the label text). -/
structure TaskParts where
  indent : List Char
  bullet : Char
  gap : List Char
  state : Char
  rest : List Char
deriving DecidableEq

/-- Split off the longest leading run of horizontal whitespace. -/
def takeWs : List Char → List Char × List Char
  | [] => ([], [])
  | c :: cs =>
    if isWsChar c then
      let p := takeWs cs
      (c :: p.1, p.2)
    else ([], c :: cs)

/-- Parse a checkbox token `[ ]`, `[x]` or `[X]` at the head of the list,
returning the state character and the remaining label text. -/
def parseCheckbox : List Char → Option (Char × List Char)
  | a :: s :: b :: rest =>
    if a = '[' && isStateChar s && b = ']' then some (s, rest) else none
  | _ => none

/-- After the indent and the bullet: nonempty whitespace, then the
checkbox token, then the label text. -/
def parseAfterBullet (indent : List Char) (b : Char) (gap r3 : List Char) :
    Option TaskParts :=
  if gap.isEmpty then none
  else
    match parseCheckbox r3 with
    | some (s, rest) => some ⟨indent, b, gap, s, rest⟩
    | none => none

/-- After the indent: a bullet character, then the rest of the pattern. -/
def parseAfterIndent (indent : List Char) : List Char → Option TaskParts
  | [] => none
  | b :: r2 =>
    if isBulletChar b then parseAfterBullet indent b (takeWs r2).1 (takeWs r2).2
    else none

/-- Modelled from the spec: the task-list line pattern of section 3
(`utils/markdown` is not among the provided sources) — optional leading
whitespace, a list-item bullet token, whitespace, then a checkbox token
`[ ]` / `[x]` / `[X]`, followed by the label text. -/
def parseTaskLine (l : List Char) : Option TaskParts :=
  parseAfterIndent (takeWs l).1 (takeWs l).2

/-- Reassemble a task-list line from its components. -/
def buildTaskLine (t : TaskParts) : List Char :=
  t.indent ++ (t.bullet :: (t.gap ++ ('[' :: t.state :: ']' :: t.rest)))

/-- A line is a task-list line when the pattern parses. -/
def isTaskLine (l : List Char) : Bool := (parseTaskLine l).isSome

/-- Modelled from the spec: unchecked becomes checked (lower-case `x`,
as in concrete scenario 1) and checked (`x` or `X`) becomes unchecked. -/
def flipState (s : Char) : Char := if s = ' ' then 'x' else ' '

/-- Replace the checkbox token of a task-list line; non-task lines are
returned unchanged. -/
def flipLine (l : List Char) : List Char :=
  match parseTaskLine l with
  | some t => buildTaskLine ⟨t.indent, t.bullet, t.gap, flipState t.state, t.rest⟩
  | none => l

/-- Modelled from the spec: the scan of section 4.1 — walk the lines in
order with a counter that starts at 0 and increments once per task-list
line; when the counter equals the index and the current line is a
task-list line, flip that line's checkbox and stop. -/
def toggleLinesAux : List (List Char) → Nat → Nat → List (List Char)
  | [], _, _ => []
  | l :: ls, counter, index =>
    if isTaskLine l then
      if counter = index then flipLine l :: ls
      else l :: toggleLinesAux ls (counter + 1) index
    else l :: toggleLinesAux ls counter index

/-- Modelled from the spec: `toggleCheckbox(document, index)` from
`utils/markdown` (not among the provided sources) — split the document
into lines, run the counting scan, and rejoin. -/
def toggleCheckbox (document : String) (index : Nat) : String :=
  String.mk (joinLines (toggleLinesAux (splitLines document.data) 0 index))

/-- Positional restatement of the scan used for reasoning: the remaining
index is decremented at each task-list line instead of incrementing a
counter. -/
def toggleLinesPos : List (List Char) → Nat → List (List Char)
  | [], _ => []
  | l :: ls, i =>
    if isTaskLine l then
      if i = 0 then flipLine l :: ls
      else l :: toggleLinesPos ls (i - 1)
    else l :: toggleLinesPos ls i

/-- Number of task-list lines. -/
def countTask : List (List Char) → Nat
  | [] => 0
  | l :: ls => (if isTaskLine l then 1 else 0) + countTask ls

/-- Position (0-based line number) of the `i`-th task-list line, when it
exists. -/
def nthTaskPos : List (List Char) → Nat → Option Nat
  | [], _ => none
  | l :: ls, i =>
    if isTaskLine l then
      if i = 0 then some 0 else (nthTaskPos ls (i - 1)).map (· + 1)
    else (nthTaskPos ls i).map (· + 1)

/-- State character of the `i`-th task-list line, when it exists. -/
def nthTaskState : List (List Char) → Nat → Option Char
  | [], _ => none
  | l :: ls, i =>
    match parseTaskLine l with
    | some t => if i = 0 then some t.state else nthTaskState ls (i - 1)
    | none => nthTaskState ls i

/-- `onIgnoreTag` callback of `Markdown.vue` (lines 153–159): a tag the
sanitizer would ignore is passed through verbatim exactly when it is an
`input` tag whose HTML contains `type="checkbox"`; `some` is an explicit
return, `none` is the callback's `return;` (default handling). -/
def onIgnoreTag (tag tagHTML : String) : Option String :=
  if tag = "input" && includesStr tagHTML "type=\"checkbox\"" then some tagHTML
  else none

/-- Does the unanchored regex `fileId:([0-9]+)` match here: the literal
`fileId:` followed by at least one digit? -/
def fileIdAt (s : List Char) : Bool :=
  hasPrefixL s ("fileId:".data) &&
    (match s.drop 7 with
     | d :: _ => d.isDigit
     | [] => false)

/-- `value.match(fileIdRegex)` of `Markdown.vue` line 118: the regex
`fileId:([0-9]+)` matches somewhere in the value. -/
def fileIdMatchL : List Char → Bool
  | [] => false
  | c :: cs => fileIdAt (c :: cs) || fileIdMatchL cs

/-- `value.split('fileId:')[1]` of `Markdown.vue` line 119: the segment
between the first occurrence of `fileId:` and the next one (everything
after the first occurrence when there is no second). -/
def fileIdOf (value : String) : String :=
  String.mk (takeBeforeFirst ("fileId:".data) (dropThroughFirst ("fileId:".data) value.data))

/-- The anchored regex `\.(jpeg|jpg|gif|png|webp)$` of `Markdown.vue`
line 124. -/
def isImageExt (s : List Char) : Bool :=
  endsWithL s (".jpeg".data) || endsWithL s (".jpg".data) || endsWithL s (".gif".data) ||
    endsWithL s (".png".data) || endsWithL s (".webp".data)

/-- The `img`/`src` branch of the `onTagAttr` callback of `Markdown.vue`
(lines 117–129).  `imgs` is the `imageUrls` record built from the
component's `images` prop; `fav` abstracts the external `xss` helper
`friendlyAttrValue`, with a missing lookup modelled as the empty string
(the code tests the value for truthiness).  `some` is an explicit return
(`some ""` removes the attribute value), `none` keeps default handling. -/
def onTagAttrImg (imgs : String → Option String) (fav : String → String)
    (value : String) : Option String :=
  if fileIdMatchL value.data then
    let attributeValue :=
      match imgs (fileIdOf value) with
      | some u => fav u
      | none => ""
    if attributeValue = "" then some "" else some ("src=" ++ attributeValue)
  else
    let isImageFile := isImageExt (takeBeforeFirst (['#']) value.data)
    let isStaticImageFile := isImageFile && hasPrefixL value.data ("/static/".data)
    if !hasPrefixL value.data ("https://".data) && !isStaticImageFile then some ""
    else none

/-- The full `onTagAttr` callback of `Markdown.vue` (lines 116–145).
`ytTest` abstracts `YOUTUBE_EMBED_SRC_REGEX.test` (the `youtube` module
is not among the provided sources). -/
def onTagAttr (imgs : String → Option String) (fav : String → String)
    (ytTest : String → Bool) (tag name value : String) : Option String :=
  if tag = "img" && name = "src" then onTagAttrImg imgs fav value
  else if tag = "iframe" then
    if name = "src" then
      if ytTest value then some ("src=" ++ fav value) else some ""
    else none
  else none

/-- JS falsiness of the `content` prop (`string | null | undefined`):
`none` models both `null` and `undefined`, and the empty string is also
falsy. -/
def contentFalsy : Option String → Bool
  | none => true
  | some s => s = ""

/-- The `htmlContent` computed value of `Markdown.vue` (lines 91–164):
falsy content yields the empty string, otherwise the content (with the
`withMultiBreaks` substitution of line 111 applied) is rendered and
sanitized.  `render` abstracts the external `markdown-it` pipeline and
`sanitize` the external `xss` call configured with the callbacks above. -/
def htmlContent (render sanitize : String → String) (content : Option String)
    (withMultiBreaks : Bool) : String :=
  if contentFalsy content then ""
  else
    sanitize (render
      (if withMultiBreaks then replaceAllStr (content.getD "") "\n\n" "\n&nbsp;\n"
       else content.getD ""))

/-- The `onCheckboxChange` handler of `Markdown.vue` (lines 212–221):
falsy content returns without emitting; otherwise the toggled document is
emitted as an `update-content` event, modelled as `some newContent`. -/
def onCheckboxChange (content : Option String) (index : Nat) : Option String :=
  if contentFalsy content then none
  else some (toggleCheckbox (content.getD "") index)

/-- Outcome of the `fs.readdir` call of `files.js`: the callback receives
either the entry list or an error. -/
inductive ReaddirResult where
  | ok (files : List String)
  | err (message : String)

/-- The fixed directory path of `files.js` line 4. -/
def directoryPath : String := "/n8n-data"

/-- Standard-output lines produced by the `fs.readdir` callback of
`files.js` (lines 6–15): on success one line per entry in order, on
failure the single diagnostic line (`console.log` joins its two
arguments with a space); nothing else happens in either case. -/
def filesScript : ReaddirResult → List String
  | .ok files => files
  | .err e => ["Error reading directory: " ++ e]

/-! Helper lemmas about line splitting and joining. -/

theorem splitLines_ne_nil (cs : List Char) : splitLines cs ≠ [] := by
  cases cs with
  | nil => simp [splitLines]
  | cons c cs =>
    simp only [splitLines]
    split
    · simp
    · split <;> simp

theorem joinLines_splitLines (cs : List Char) : joinLines (splitLines cs) = cs := by
  induction cs with
  | nil => rfl
  | cons c cs ih =>
    simp only [splitLines]
    by_cases h : c = '\n'
    · subst h
      rw [if_pos rfl]
      obtain ⟨l, ls, hls⟩ : ∃ l ls, splitLines cs = l :: ls := by
        cases hsp : splitLines cs with
        | nil => exact absurd hsp (splitLines_ne_nil cs)
        | cons l ls => exact ⟨l, ls, rfl⟩
      rw [hls] at ih ⊢
      simpa [joinLines] using ih
    · rw [if_neg h]
      cases hsp : splitLines cs with
      | nil => exact absurd hsp (splitLines_ne_nil cs)
      | cons l ls =>
        rw [hsp] at ih
        cases ls with
        | nil => simpa [joinLines] using ih
        | cons b bs =>
          simp only [joinLines] at ih ⊢
          rw [← ih]
          simp

theorem splitLines_no_nl (cs : List Char) : ∀ l ∈ splitLines cs, '\n' ∉ l := by
  induction cs with
  | nil => simp [splitLines]
  | cons c cs ih =>
    intro l hl
    simp only [splitLines] at hl
    by_cases h : c = '\n'
    · rw [if_pos h] at hl
      rcases List.mem_cons.mp hl with h1 | h1
      · simp [h1]
      · exact ih l h1
    · rw [if_neg h] at hl
      cases hsp : splitLines cs with
      | nil => exact absurd hsp (splitLines_ne_nil cs)
      | cons l0 ls =>
        rw [hsp] at hl
        rcases List.mem_cons.mp hl with h1 | h1
        · subst h1
          intro hmem
          rcases List.mem_cons.mp hmem with h2 | h2
          · exact h h2.symm
          · exact ih l0 (by rw [hsp]; exact List.mem_cons_self _ _) h2
        · exact ih l (by rw [hsp]; exact List.mem_cons_of_mem _ h1)

theorem splitLines_of_no_nl {a : List Char} (h : '\n' ∉ a) : splitLines a = [a] := by
  induction a with
  | nil => rfl
  | cons c cs ih =>
    have hc : c ≠ '\n' := fun hc => h (by simp [hc])
    have hcs : '\n' ∉ cs := fun hm => h (List.mem_cons_of_mem _ hm)
    simp only [splitLines, if_neg hc, ih hcs]

theorem splitLines_append_nl {a : List Char} (h : '\n' ∉ a) (t : List Char) :
    splitLines (a ++ '\n' :: t) = a :: splitLines t := by
  induction a with
  | nil => simp [splitLines]
  | cons c cs ih =>
    have hc : c ≠ '\n' := fun hc => h (by simp [hc])
    have hcs : '\n' ∉ cs := fun hm => h (List.mem_cons_of_mem _ hm)
    simp only [List.cons_append, splitLines, if_neg hc, List.append_eq, ih hcs]

theorem splitLines_joinLines {M : List (List Char)} (hne : M ≠ [])
    (hnl : ∀ l ∈ M, '\n' ∉ l) : splitLines (joinLines M) = M := by
  induction M with
  | nil => exact absurd rfl hne
  | cons a M ih =>
    cases M with
    | nil =>
      simp only [joinLines]
      exact splitLines_of_no_nl (hnl a (List.mem_cons_self _ _))
    | cons b bs =>
      simp only [joinLines]
      rw [splitLines_append_nl (hnl a (List.mem_cons_self _ _))]
      congr 1
      exact ih (by simp) (fun l hl => hnl l (List.mem_cons_of_mem _ hl))

/-! Helper lemmas about the task-line pattern. -/

theorem takeWs_fst_append_snd (l : List Char) : (takeWs l).1 ++ (takeWs l).2 = l := by
  induction l with
  | nil => rfl
  | cons c cs ih =>
    simp only [takeWs]
    split
    · simpa using ih
    · rfl

theorem takeWs_fst_ws (l : List Char) : ∀ c ∈ (takeWs l).1, isWsChar c = true := by
  induction l with
  | nil => simp [takeWs]
  | cons c cs ih =>
    simp only [takeWs]
    split
    · intro d hd
      rcases List.mem_cons.mp hd with h1 | h1
      · subst h1; assumption
      · exact ih d h1
    · simp

theorem takeWs_snd_head (l : List Char) :
    ∀ d r, (takeWs l).2 = d :: r → isWsChar d = false := by
  induction l with
  | nil => simp [takeWs]
  | cons c cs ih =>
    simp only [takeWs]
    split
    · exact ih
    · rename_i hcw
      intro d r hdr
      obtain ⟨hcd, -⟩ := List.cons.inj hdr
      subst hcd
      simpa using hcw

theorem takeWs_ws_append {w : List Char} (hw : ∀ c ∈ w, isWsChar c = true)
    {d : Char} (hd : isWsChar d = false) (r : List Char) :
    takeWs (w ++ d :: r) = (w, d :: r) := by
  induction w with
  | nil => simp [takeWs, hd]
  | cons c w ih =>
    have hc : isWsChar c = true := hw c (List.mem_cons_self _ _)
    simp only [List.cons_append, takeWs, hc, if_pos, List.append_eq]
    rw [ih (fun x hx => hw x (List.mem_cons_of_mem _ hx))]

theorem bullet_not_ws {b : Char} (hb : isBulletChar b = true) : isWsChar b = false := by
  simp only [isBulletChar, Bool.or_eq_true, decide_eq_true_eq] at hb
  rcases hb with (h | h) | h <;> subst h <;> decide

theorem parseCheckbox_sound {r : List Char} {s : Char} {rest : List Char}
    (h : parseCheckbox r = some (s, rest)) :
    r = '[' :: s :: ']' :: rest ∧ isStateChar s = true := by
  rcases r with _ | ⟨a, _ | ⟨s0, _ | ⟨b, rest0⟩⟩⟩
  · exact absurd h (by simp [parseCheckbox])
  · exact absurd h (by simp [parseCheckbox])
  · exact absurd h (by simp [parseCheckbox])
  · simp only [parseCheckbox] at h
    split at h
    · rename_i hcond
      simp only [Bool.and_eq_true, decide_eq_true_eq] at hcond
      obtain ⟨⟨ha, hs⟩, hb⟩ := hcond
      obtain ⟨hs0, hrest0⟩ := Prod.mk.inj (Option.some.inj h)
      subst ha hb hs0 hrest0
      exact ⟨rfl, hs⟩
    · exact absurd h (by simp)

theorem parseCheckbox_build {s : Char} (hs : isStateChar s = true) (rest : List Char) :
    parseCheckbox ('[' :: s :: ']' :: rest) = some (s, rest) := by
  simp [parseCheckbox, hs]

theorem parseTaskLine_sound {l : List Char} {t : TaskParts}
    (h : parseTaskLine l = some t) :
    l = buildTaskLine t ∧ (∀ c ∈ t.indent, isWsChar c = true) ∧
      isBulletChar t.bullet = true ∧ t.gap ≠ [] ∧
      (∀ c ∈ t.gap, isWsChar c = true) ∧ isStateChar t.state = true := by
  unfold parseTaskLine at h
  rcases htw : takeWs l with ⟨indent, r1⟩
  simp only [htw] at h
  cases r1 with
  | nil => exact absurd h (by simp [parseAfterIndent])
  | cons b r2 =>
    simp only [parseAfterIndent] at h
    by_cases hb : isBulletChar b = true
    · rw [if_pos hb] at h
      rcases htw2 : takeWs r2 with ⟨gap, r3⟩
      simp only [htw2] at h
      unfold parseAfterBullet at h
      by_cases hg : gap.isEmpty
      · rw [if_pos hg] at h
        exact absurd h (by simp)
      · rw [if_neg hg] at h
        cases hpc : parseCheckbox r3 with
        | none => rw [hpc] at h; exact absurd h (by simp)
        | some p =>
          rcases p with ⟨s, rest⟩
          rw [hpc] at h
          obtain ⟨hr3, hs⟩ := parseCheckbox_sound hpc
          have ht : t = ⟨indent, b, gap, s, rest⟩ := (Option.some.inj h).symm
          subst ht
          refine ⟨?_, ?_, hb, ?_, ?_, hs⟩
          · have h1 : indent ++ (b :: r2) = l := by
              have := takeWs_fst_append_snd l
              rw [htw] at this
              exact this
            have h2 : gap ++ r3 = r2 := by
              have := takeWs_fst_append_snd r2
              rw [htw2] at this
              exact this
            rw [buildTaskLine]
            simp only
            rw [← h1, ← h2, hr3]
          · intro c hc
            have := takeWs_fst_ws l
            rw [htw] at this
            exact this c hc
          · simpa using hg
          · intro c hc
            have := takeWs_fst_ws r2
            rw [htw2] at this
            exact this c hc
    · rw [if_neg hb] at h
      exact absurd h (by simp)

theorem parseTaskLine_build {indent : List Char} {b : Char} {gap : List Char}
    {s : Char} {rest : List Char}
    (hi : ∀ c ∈ indent, isWsChar c = true) (hb : isBulletChar b = true)
    (hg : gap ≠ []) (hgw : ∀ c ∈ gap, isWsChar c = true)
    (hs : isStateChar s = true) :
    parseTaskLine (buildTaskLine ⟨indent, b, gap, s, rest⟩) =
      some ⟨indent, b, gap, s, rest⟩ := by
  have h1 : takeWs (indent ++ (b :: (gap ++ ('[' :: s :: ']' :: rest)))) =
      (indent, b :: (gap ++ ('[' :: s :: ']' :: rest))) :=
    takeWs_ws_append hi (bullet_not_ws hb) _
  have h2 : takeWs (gap ++ ('[' :: s :: ']' :: rest)) =
      (gap, '[' :: s :: ']' :: rest) :=
    takeWs_ws_append hgw (by decide) _
  unfold parseTaskLine buildTaskLine
  simp only [h1, h2, parseAfterIndent, if_pos hb]
  unfold parseAfterBullet
  rw [if_neg (by simpa using hg)]
  rw [parseCheckbox_build hs]

theorem isStateChar_flipState (s : Char) : isStateChar (flipState s) = true := by
  unfold flipState
  split <;> decide

theorem flipState_ne_nl (s : Char) : flipState s ≠ '\n' := by
  unfold flipState
  split <;> decide

theorem flipState_flipState {s : Char} (hs : isStateChar s = true) (hX : s ≠ 'X') :
    flipState (flipState s) = s := by
  simp only [isStateChar, Bool.or_eq_true, decide_eq_true_eq] at hs
  rcases hs with (h | h) | h
  · subst h; decide
  · subst h; decide
  · exact absurd h hX

theorem flipLine_parse {l : List Char} {t : TaskParts} (h : parseTaskLine l = some t) :
    parseTaskLine (flipLine l) =
      some ⟨t.indent, t.bullet, t.gap, flipState t.state, t.rest⟩ := by
  obtain ⟨-, hi, hb, hg, hgw, -⟩ := parseTaskLine_sound h
  have hf : flipLine l = buildTaskLine ⟨t.indent, t.bullet, t.gap, flipState t.state, t.rest⟩ := by
    simp [flipLine, h]
  rw [hf]
  exact parseTaskLine_build hi hb hg hgw (isStateChar_flipState _)

theorem isTaskLine_flipLine (l : List Char) : isTaskLine (flipLine l) = isTaskLine l := by
  cases h : parseTaskLine l with
  | none => simp [flipLine, h]
  | some t => simp [isTaskLine, flipLine_parse h, h]

theorem flipLine_flipLine {l : List Char} {t : TaskParts}
    (h : parseTaskLine l = some t) (hX : t.state ≠ 'X') :
    flipLine (flipLine l) = l := by
  obtain ⟨hl, hi, hb, hg, hgw, hs⟩ := parseTaskLine_sound h
  have h3 : parseTaskLine
      (buildTaskLine ⟨t.indent, t.bullet, t.gap, flipState t.state, t.rest⟩) =
      some ⟨t.indent, t.bullet, t.gap, flipState t.state, t.rest⟩ :=
    parseTaskLine_build hi hb hg hgw (isStateChar_flipState _)
  simp only [flipLine, h, h3]
  rw [flipState_flipState hs hX]
  rw [hl]

theorem flipLine_no_nl {l : List Char} (h : '\n' ∉ l) : '\n' ∉ flipLine l := by
  cases hp : parseTaskLine l with
  | none => simpa [flipLine, hp] using h
  | some t =>
    obtain ⟨hl, -, -, -, -, -⟩ := parseTaskLine_sound hp
    rw [hl] at h
    simp only [flipLine, hp]
    simp only [buildTaskLine, List.mem_append, List.mem_cons] at h ⊢
    intro hmem
    rcases hmem with h1 | h1 | h1 | h1 | h1 | h1 | h1
    · exact h (Or.inl h1)
    · exact h (Or.inr (Or.inl h1))
    · exact h (Or.inr (Or.inr (Or.inl h1)))
    · exact h (Or.inr (Or.inr (Or.inr (Or.inl h1))))
    · exact flipState_ne_nl t.state h1.symm
    · exact h (Or.inr (Or.inr (Or.inr (Or.inr (Or.inr (Or.inl h1))))))
    · exact h (Or.inr (Or.inr (Or.inr (Or.inr (Or.inr (Or.inr h1))))))

/-! Helper lemmas about the toggling scan. -/

theorem toggleLinesAux_eq_pos (ls : List (List Char)) :
    ∀ counter index, counter ≤ index →
      toggleLinesAux ls counter index = toggleLinesPos ls (index - counter) := by
  induction ls with
  | nil => intro c i _; rfl
  | cons l ls ih =>
    intro c i hc
    by_cases ht : isTaskLine l
    · by_cases hci : c = i
      · subst hci
        simp [toggleLinesAux, toggleLinesPos, ht]
      · have hlt : c < i := lt_of_le_of_ne hc hci
        have h1 : i - c ≠ 0 := by omega
        simp only [toggleLinesAux, toggleLinesPos, ht, if_pos, if_neg hci, if_neg h1,
          if_true]
        rw [ih (c + 1) i (by omega)]
        congr 1
    · simp only [toggleLinesAux, toggleLinesPos, ht, if_neg, Bool.false_eq_true,
        if_false]
      rw [ih c i hc]

theorem toggleCheckbox_eq_pos (d : String) (i : Nat) :
    toggleCheckbox d i = String.mk (joinLines (toggleLinesPos (splitLines d.data) i)) := by
  unfold toggleCheckbox
  rw [toggleLinesAux_eq_pos _ 0 i (Nat.zero_le i), Nat.sub_zero]

theorem toggleLinesPos_of_countTask_le (ls : List (List Char)) :
    ∀ i, countTask ls ≤ i → toggleLinesPos ls i = ls := by
  induction ls with
  | nil => intro i _; rfl
  | cons l ls ih =>
    intro i hi
    by_cases ht : isTaskLine l
    · simp only [countTask, ht, if_pos] at hi
      have h0 : i ≠ 0 := by omega
      simp only [toggleLinesPos, ht, if_pos, if_neg h0, if_true]
      rw [ih (i - 1) (by omega)]
    · simp only [countTask, ht, Bool.false_eq_true, if_false, Nat.zero_add] at hi
      simp only [toggleLinesPos, ht, Bool.false_eq_true, if_false]
      rw [ih i hi]

theorem nthTaskPos_isSome_of_lt (ls : List (List Char)) :
    ∀ i, i < countTask ls → ∃ p, nthTaskPos ls i = some p := by
  induction ls with
  | nil => intro i hi; simp [countTask] at hi
  | cons l ls ih =>
    intro i hi
    by_cases ht : isTaskLine l
    · by_cases h0 : i = 0
      · subst h0
        exact ⟨0, by simp [nthTaskPos, ht]⟩
      · simp only [countTask, ht, if_pos] at hi
        obtain ⟨q, hq⟩ := ih (i - 1) (by omega)
        exact ⟨q + 1, by simp [nthTaskPos, ht, if_neg h0, hq]⟩
    · simp only [countTask, ht, Bool.false_eq_true, if_false, Nat.zero_add] at hi
      obtain ⟨q, hq⟩ := ih i hi
      exact ⟨q + 1, by simp [nthTaskPos, ht, hq]⟩

theorem nthTaskPos_lt_length (ls : List (List Char)) :
    ∀ i p, nthTaskPos ls i = some p → p < ls.length := by
  induction ls with
  | nil => intro i p h; simp [nthTaskPos] at h
  | cons l ls ih =>
    intro i p h
    by_cases ht : isTaskLine l
    · by_cases h0 : i = 0
      · subst h0
        simp only [nthTaskPos, ht, if_pos, if_true] at h
        obtain rfl : (0 : Nat) = p := Option.some.inj h
        simp
      · simp only [nthTaskPos, ht, if_pos, if_neg h0, if_true, Option.map_eq_some'] at h
        obtain ⟨q, hq, rfl⟩ := h
        have := ih (i - 1) q hq
        simp only [List.length_cons]
        omega
    · simp only [nthTaskPos, ht, Bool.false_eq_true, if_false, Option.map_eq_some'] at h
      obtain ⟨q, hq, rfl⟩ := h
      have := ih i q hq
      simp only [List.length_cons]
      omega

theorem nthTaskPos_isTaskLine (ls : List (List Char)) :
    ∀ i p, nthTaskPos ls i = some p → isTaskLine (ls.getD p []) = true := by
  induction ls with
  | nil => intro i p h; simp [nthTaskPos] at h
  | cons l ls ih =>
    intro i p h
    by_cases ht : isTaskLine l
    · by_cases h0 : i = 0
      · subst h0
        simp only [nthTaskPos, ht, if_pos, if_true] at h
        obtain rfl : (0 : Nat) = p := Option.some.inj h
        simpa using ht
      · simp only [nthTaskPos, ht, if_pos, if_neg h0, if_true, Option.map_eq_some'] at h
        obtain ⟨q, hq, rfl⟩ := h
        simpa [List.getD_cons_succ] using ih (i - 1) q hq
    · simp only [nthTaskPos, ht, Bool.false_eq_true, if_false, Option.map_eq_some'] at h
      obtain ⟨q, hq, rfl⟩ := h
      simpa [List.getD_cons_succ] using ih i q hq

theorem toggleLinesPos_eq_set (ls : List (List Char)) :
    ∀ i p, nthTaskPos ls i = some p →
      toggleLinesPos ls i = ls.set p (flipLine (ls.getD p [])) := by
  induction ls with
  | nil => intro i p h; simp [nthTaskPos] at h
  | cons l ls ih =>
    intro i p h
    by_cases ht : isTaskLine l
    · by_cases h0 : i = 0
      · subst h0
        simp only [nthTaskPos, ht, if_pos, if_true] at h
        obtain rfl : (0 : Nat) = p := Option.some.inj h
        simp [toggleLinesPos, ht]
      · simp only [nthTaskPos, ht, if_pos, if_neg h0, if_true, Option.map_eq_some'] at h
        obtain ⟨q, hq, rfl⟩ := h
        simp only [toggleLinesPos, ht, if_pos, if_neg h0, if_true, List.set_cons_succ,
          List.getD_cons_succ]
        rw [ih (i - 1) q hq]
    · simp only [nthTaskPos, ht, Bool.false_eq_true, if_false, Option.map_eq_some'] at h
      obtain ⟨q, hq, rfl⟩ := h
      simp only [toggleLinesPos, ht, Bool.false_eq_true, if_false, List.set_cons_succ,
        List.getD_cons_succ]
      rw [ih i q hq]

theorem toggleLinesPos_ne_nil {ls : List (List Char)} (h : ls ≠ []) (i : Nat) :
    toggleLinesPos ls i ≠ [] := by
  cases ls with
  | nil => exact absurd rfl h
  | cons l ls =>
    simp only [toggleLinesPos]
    split
    · split <;> simp
    · simp

theorem toggleLinesPos_no_nl {ls : List (List Char)}
    (h : ∀ l ∈ ls, '\n' ∉ l) (i : Nat) : ∀ l ∈ toggleLinesPos ls i, '\n' ∉ l := by
  induction ls generalizing i with
  | nil => simp [toggleLinesPos]
  | cons l ls ih =>
    have hl : '\n' ∉ l := h l (List.mem_cons_self _ _)
    have hls : ∀ x ∈ ls, '\n' ∉ x := fun x hx => h x (List.mem_cons_of_mem _ hx)
    intro x hx
    simp only [toggleLinesPos] at hx
    by_cases ht : isTaskLine l
    · by_cases h0 : i = 0
      · rw [if_pos ht, if_pos h0] at hx
        rcases List.mem_cons.mp hx with h1 | h1
        · subst h1; exact flipLine_no_nl hl
        · exact hls x h1
      · rw [if_pos ht, if_neg h0] at hx
        rcases List.mem_cons.mp hx with h1 | h1
        · subst h1; exact hl
        · exact ih hls (i - 1) x h1
    · rw [if_neg ht] at hx
      rcases List.mem_cons.mp hx with h1 | h1
      · subst h1; exact hl
      · exact ih hls i x h1

theorem toggleLinesPos_toggleLinesPos (ls : List (List Char)) :
    ∀ i, (nthTaskState ls i = some ' ' ∨ nthTaskState ls i = some 'x') →
      toggleLinesPos (toggleLinesPos ls i) i = ls := by
  induction ls with
  | nil => intro i _; rfl
  | cons l ls ih =>
    intro i hi
    cases hp : parseTaskLine l with
    | some t =>
      have ht : isTaskLine l = true := by simp [isTaskLine, hp]
      by_cases h0 : i = 0
      · subst h0
        simp only [nthTaskState, hp, if_pos, if_true] at hi
        have hst : t.state = ' ' ∨ t.state = 'x' := by
          rcases hi with h1 | h1
          · exact Or.inl (Option.some.inj h1)
          · exact Or.inr (Option.some.inj h1)
        have hX : t.state ≠ 'X' := by
          rcases hst with h1 | h1 <;> rw [h1] <;> decide
        have htf : isTaskLine (flipLine l) = true := by
          rw [isTaskLine_flipLine]; exact ht
        simp only [toggleLinesPos, ht, htf, if_pos, if_true]
        rw [flipLine_flipLine hp hX]
      · simp only [nthTaskState, hp, if_neg h0] at hi
        simp only [toggleLinesPos, ht, if_pos, if_neg h0, if_true]
        rw [ih (i - 1) hi]
    | none =>
      have ht : isTaskLine l = false := by simp [isTaskLine, hp]
      simp only [nthTaskState, hp] at hi
      simp only [toggleLinesPos, ht, Bool.false_eq_true, if_false]
      rw [ih i hi]

theorem splitLines_toggleCheckbox (d : String) (i : Nat) :
    splitLines (toggleCheckbox d i).data = toggleLinesPos (splitLines d.data) i := by
  rw [toggleCheckbox_eq_pos]
  exact splitLines_joinLines (toggleLinesPos_ne_nil (splitLines_ne_nil _) i)
    (toggleLinesPos_no_nl (splitLines_no_nl _) i)

/-! Claim theorems. -/

/-- C1: `toggleCheckbox` scans the document's lines in order with a
counter that starts at 0 and increments once per task-list line; when
the counter equals the index at a task-list line — located at line
number `p` by `nthTaskPos` — exactly that line is replaced by its
checkbox-flipped version and no further line is modified; the flip turns
unchecked (`[ ]`) into checked and checked (`[x]`/`[X]`) into
unchecked. -/
theorem toggleCheckbox_scan_spec (d : String) (i p : Nat)
    (h : nthTaskPos (splitLines d.data) i = some p) :
    toggleCheckbox d i =
      String.mk (joinLines ((splitLines d.data).set p
        (flipLine ((splitLines d.data).getD p [])))) ∧
    ∀ t, parseTaskLine ((splitLines d.data).getD p []) = some t →
      parseTaskLine (flipLine ((splitLines d.data).getD p [])) =
        some ⟨t.indent, t.bullet, t.gap, flipState t.state, t.rest⟩ ∧
      (t.state = ' ' → flipState t.state = 'x') ∧
      (t.state ≠ ' ' → flipState t.state = ' ') := by
  constructor
  · rw [toggleCheckbox_eq_pos, toggleLinesPos_eq_set _ i p h]
  · intro t ht
    refine ⟨flipLine_parse ht, ?_, ?_⟩
    · intro hs; simp [flipState, hs]
    · intro hs; simp [flipState, hs]

theorem toggleCheckbox_scan_spec_w :
    nthTaskPos (splitLines (("x\n- [ ] a").data)) 0 = some 1 ∧
    toggleCheckbox "x\n- [ ] a" 0 =
      String.mk (joinLines ((splitLines (("x\n- [ ] a").data)).set 1
        (flipLine ((splitLines (("x\n- [ ] a").data)).getD 1 [])))) :=
  ⟨by decide, (toggleCheckbox_scan_spec "x\n- [ ] a" 0 1 (by decide)).1⟩

/-- C2: when the index is at least the number of task-list lines — in
particular when the document is empty or has no task-list line at all —
the document is returned unchanged; the mapper is a total function of
its inputs, so no input can raise an error. -/
theorem toggleCheckbox_out_of_range (d : String) (i : Nat)
    (h : countTask (splitLines d.data) ≤ i) : toggleCheckbox d i = d := by
  rw [toggleCheckbox_eq_pos, toggleLinesPos_of_countTask_le _ i h,
    joinLines_splitLines]

theorem toggleCheckbox_out_of_range_w :
    countTask (splitLines (("- [ ] Only task").data)) ≤ 5 ∧
    toggleCheckbox "- [ ] Only task" 5 = "- [ ] Only task" :=
  ⟨by decide, toggleCheckbox_out_of_range "- [ ] Only task" 5 (by decide)⟩

/-- C3 counterexample: the claim's involution fails on an upper-case
checked checkbox: `- [X] a` has one task-list line, so index 0 is within
range, yet toggling twice yields `- [x] a`, not the original document
(the first toggle unchecks, the second re-checks with a lower-case
`x`). -/
theorem toggleCheckbox_involution_cex :
    0 < countTask (splitLines (("- [X] a").data)) ∧
    toggleCheckbox (toggleCheckbox "- [X] a" 0) 0 ≠ "- [X] a" := by decide

/-- C3 (amended): for an in-range index whose targeted task-list line is
unchecked (`[ ]`) or checked with a lower-case `x` (`[x]`, excluding
upper-case `[X]`), applying `toggleCheckbox` twice with the same index
restores the original document. -/
theorem toggleCheckbox_involution (d : String) (i : Nat)
    (h : nthTaskState (splitLines d.data) i = some ' ' ∨
      nthTaskState (splitLines d.data) i = some 'x') :
    toggleCheckbox (toggleCheckbox d i) i = d := by
  rw [toggleCheckbox_eq_pos, splitLines_toggleCheckbox,
    toggleLinesPos_toggleLinesPos _ i h, joinLines_splitLines]

theorem toggleCheckbox_involution_w :
    (nthTaskState (splitLines (("- [ ] Buy milk").data)) 0 = some ' ' ∨
      nthTaskState (splitLines (("- [ ] Buy milk").data)) 0 = some 'x') ∧
    toggleCheckbox (toggleCheckbox "- [ ] Buy milk" 0) 0 = "- [ ] Buy milk" :=
  ⟨Or.inl (by decide), toggleCheckbox_involution "- [ ] Buy milk" 0 (Or.inl (by decide))⟩

/-- C4: frame property — for an in-range index targeting line number
`p`, the result has the same number of lines (so all line terminators
are preserved by the newline rejoin), every line other than `p` is
byte-identical, and line `p` keeps its indentation, bullet, inner
whitespace and label text, with only the checkbox state character
flipped. -/
theorem toggleCheckbox_frame (d : String) (i p : Nat)
    (h : nthTaskPos (splitLines d.data) i = some p) :
    (splitLines (toggleCheckbox d i).data).length = (splitLines d.data).length ∧
    (∀ j, j ≠ p → (splitLines (toggleCheckbox d i).data)[j]? = (splitLines d.data)[j]?) ∧
    ∀ t, parseTaskLine ((splitLines d.data).getD p []) = some t →
      (splitLines (toggleCheckbox d i).data)[p]? =
        some (buildTaskLine ⟨t.indent, t.bullet, t.gap, flipState t.state, t.rest⟩) := by
  have hp := nthTaskPos_lt_length _ i p h
  rw [splitLines_toggleCheckbox, toggleLinesPos_eq_set _ i p h]
  refine ⟨List.length_set .., ?_, ?_⟩
  · intro j hj
    exact List.getElem?_set_ne (Ne.symm hj)
  · intro t ht
    rw [List.getElem?_set_eq_of_lt _ hp]
    simp only [flipLine, ht]

theorem toggleCheckbox_frame_w :
    nthTaskPos (splitLines (("t\n- [ ] a").data)) 0 = some 1 ∧
    (splitLines (toggleCheckbox "t\n- [ ] a" 0).data)[0]? =
      (splitLines (("t\n- [ ] a").data))[0]? :=
  ⟨by decide, (toggleCheckbox_frame "t\n- [ ] a" 0 1 (by decide)).2.1 0 (by decide)⟩

/-- C5: concrete scenario 3 of the spec — index 1 flips only the Task B
checkbox to checked, leaving the Task A line and the two plain-text
lines unchanged. -/
theorem toggleCheckbox_scenario3 :
    toggleCheckbox "Some text\n- [ ] Task A\nMore text\n- [ ] Task B" 1 =
      "Some text\n- [ ] Task A\nMore text\n- [x] Task B" := by decide

/-- C6: determinism — two invocations with equal document and equal
index return the identical string; the embedding of the mapper is a pure
function of its two arguments, with no I/O, persistence, emission or
logging effect. -/
theorem toggleCheckbox_deterministic (d d' : String) (i i' : Nat)
    (hd : d = d') (hi : i = i') : toggleCheckbox d i = toggleCheckbox d' i' := by
  rw [hd, hi]

theorem toggleCheckbox_deterministic_w :
    "- [ ] a" = "- [ ] a" ∧ toggleCheckbox "- [ ] a" 0 = toggleCheckbox "- [ ] a" 0 :=
  ⟨rfl, toggleCheckbox_deterministic "- [ ] a" "- [ ] a" 0 0 rfl rfl⟩

/-- C7: the sanitizer's `onIgnoreTag` callback returns the original tag
HTML exactly when the tag is `input` and its HTML contains
`type="checkbox"` (every other ignored tag gets default handling), so
rendered checkboxes survive sanitization for the UI to detect clicks on
them. -/
theorem onIgnoreTag_checkbox_passthrough (tag tagHTML : String) :
    onIgnoreTag tag tagHTML = some tagHTML ↔
      tag = "input" ∧ includesStr tagHTML "type=\"checkbox\"" = true := by
  unfold onIgnoreTag
  by_cases h1 : tag = "input" <;>
    by_cases h2 : includesStr tagHTML "type=\"checkbox\"" = true <;>
    simp [h1, h2]

/-- C8: the directory-listing script reads the fixed path `/n8n-data`;
on success its callback writes each directory entry name to standard
output one per line in order, and on a read failure it writes the single
diagnostic line and performs no further action (its output is exhausted
by that line; no retry, no raise, no exit-code signalling). -/
theorem filesScript_spec (fs : List String) (e : String) :
    directoryPath = "/n8n-data" ∧ filesScript (.ok fs) = fs ∧
      filesScript (.err e) = ["Error reading directory: " ++ e] :=
  ⟨rfl, rfl, rfl⟩

/-- C9: the `img src` branch of `onTagAttr` — a `src` value is replaced
by the empty string unless it matches `fileId:` followed by digits (then
it becomes the mapped image URL, or the empty string when no non-empty
mapping exists), starts with `https://`, or starts with `/static/` with
the portion before any `#` ending in a supported image extension (the
latter two are left to default handling). -/
theorem onTagAttr_img_src_policy (imgs : String → Option String)
    (fav : String → String) (ytTest : String → Bool) (value : String) :
    onTagAttr imgs fav ytTest "img" "src" value =
      (if fileIdMatchL value.data then
        match imgs (fileIdOf value) with
        | some u => if fav u = "" then some "" else some ("src=" ++ fav u)
        | none => some ""
      else if hasPrefixL value.data ("https://".data) ||
          (isImageExt (takeBeforeFirst (['#']) value.data) &&
            hasPrefixL value.data ("/static/".data)) then none
      else some "") := by
  unfold onTagAttr onTagAttrImg
  rw [if_pos (by simp)]
  by_cases hf : fileIdMatchL value.data = true
  · rw [if_pos hf, if_pos hf]
    cases imgs (fileIdOf value) with
    | none => simp
    | some u => by_cases hu : fav u = "" <;> simp [hu]
  · rw [if_neg hf, if_neg hf]
    by_cases h1 : hasPrefixL value.data ("https://".data) = true <;>
      by_cases h2 : (isImageExt (takeBeforeFirst (['#']) value.data) &&
        hasPrefixL value.data ("/static/".data)) = true <;>
      simp [h1, h2]

/-- C10: for falsy content (empty string, null or undefined, the latter
two modelled as `none`) the computed `htmlContent` is the empty string,
and `onCheckboxChange` returns without computing new content or emitting
an update event, for every index. -/
theorem htmlContent_empty_guard (render sanitize : String → String)
    (withMultiBreaks : Bool) (content : Option String)
    (h : contentFalsy content = true) :
    htmlContent render sanitize content withMultiBreaks = "" ∧
      ∀ index, onCheckboxChange content index = none := by
  constructor
  · unfold htmlContent
    rw [if_pos h]
  · intro i
    unfold onCheckboxChange
    rw [if_pos h]

theorem htmlContent_empty_guard_w :
    contentFalsy (some "") = true ∧
    htmlContent id id (some "") false = "" ∧
    onCheckboxChange (some "") 0 = none :=
  ⟨by decide, (htmlContent_empty_guard id id false (some "") (by decide)).1,
    (htmlContent_empty_guard id id false (some "") (by decide)).2 0⟩

end N8nSpec
